import Mathlib

/-!
Verification of the scaffold scripts of the module-app repository.

The repository consists of two Python scripts, `plugin.py` and `ss.py`.
Each script is a straight-line sequence of `os.makedirs(..., exist_ok=True)`
calls and `create_file(path, content)` calls (where `create_file` opens the
path with mode 'w', writes the content, and closes the handle via a
with-statement), followed by printing a fixed success message.

We embed the filesystem as an association list from paths (lists of path
components) to nodes (directory, or file with a string content).  `makedirs`
and `create_file` are translated from the Python semantics; each script is
embedded as the list of steps it performs, in program order, with the literal
paths and content strings of the source.
-/

namespace ModuleApp

/-- A filesystem node: a directory or a file with its content. -/
inductive Node where
  | dir : Node
  | file : String → Node
deriving DecidableEq

/-- A path, as its list of components (relative to the working directory). -/
abbrev Path := List String

/-- Filesystem state: an association list from paths to nodes. -/
abbrev FS := List (Path × Node)

/-- Look up the node at a path (first matching entry). -/
def lookup : FS → Path → Option Node
  | [], _ => none
  | (q, n) :: rest, p => if q = p then some n else lookup rest p

/-- Set the node at a path, replacing the first matching entry or appending. -/
def setNode : FS → Path → Node → FS
  | [], p, n => [(p, n)]
  | (q, m) :: rest, p, n =>
      if q = p then (p, n) :: rest else (q, m) :: setNode rest p n

/-- The nonempty prefixes of a path, extending a prefix already built. -/
def prefixesFrom (done : Path) : Path → List Path
  | [] => []
  | c :: cs => (done ++ [c]) :: prefixesFrom (done ++ [c]) cs

/-- The nonempty prefixes of a path, shortest first. -/
def prefixes (p : Path) : List Path := prefixesFrom [] p

/-- Embedding of `os.makedirs(path, exist_ok=True)` walking the remaining
components: an existing directory component is passed over silently, a
component occupied by a file raises, and a missing component is created as a
directory. -/
def mkdirsFrom (fs : FS) (done : Path) : Path → Except Unit FS
  | [] => Except.ok fs
  | c :: cs =>
      match lookup fs (done ++ [c]) with
      | some Node.dir => mkdirsFrom fs (done ++ [c]) cs
      | some (Node.file _) => Except.error ()
      | none => mkdirsFrom (setNode fs (done ++ [c]) Node.dir) (done ++ [c]) cs

/-- Embedding of `os.makedirs(p, exist_ok=True)`: create the directory and
every missing ancestor; succeed silently when they already exist; fail when a
component exists as a non-directory file. -/
def makedirs (fs : FS) (p : Path) : Except Unit FS := mkdirsFrom fs [] p

/-- The parent path of a path. -/
def parent (p : Path) : Path := p.dropLast

/-- Embedding of `create_file(path, content)` from both scripts: `open(path,
'w')` requires the parent directory to exist (the working-directory root
always exists) and the path not to be a directory; it truncates any existing
file and writes exactly `content`; the with-statement closes the handle on
every exit path, which the embedding reflects by returning the final state
atomically. -/
def create_file (fs : FS) (p : Path) (content : String) : Except Unit FS :=
  if parent p = [] ∨ lookup fs (parent p) = some Node.dir then
    match lookup fs p with
    | some Node.dir => Except.error ()
    | _ => Except.ok (setNode fs p (Node.file content))
  else Except.error ()

/-- Embedding of calling `create_file(path)` with the content argument
omitted, taking the default `content=""` of the Python definition. -/
def create_file_default (fs : FS) (p : Path) : Except Unit FS :=
  create_file fs p ""

/-- One step of a scaffold script: a `makedirs` call or a `create_file` call. -/
inductive Step where
  | mkdir : Path → Step
  | write : Path → String → Step
deriving DecidableEq

/-- Execute one step on a filesystem state. -/
def runStep (fs : FS) : Step → Except Unit FS
  | Step.mkdir p => makedirs fs p
  | Step.write p c => create_file fs p c

/-- Run a script: execute the steps in order; on the first failing step the
run stops, returning the filesystem state reached so far and `false` (the
exception propagates uncaught in the scripts, terminating the program). -/
def run : FS → List Step → FS × Bool
  | fs, [] => (fs, true)
  | fs, s :: rest =>
      match runStep fs s with
      | Except.ok fs1 => run fs1 rest
      | Except.error _ => (fs, false)

/-- The `__main__` block of a script: run the scaffold, then print the fixed
success message; an uncaught exception terminates the program before the
print, so the output is the message exactly when the run succeeded. -/
def mainOutput (fs : FS) (script : List Step) (msg : String) :
    FS × List String :=
  ((run fs script).1, if (run fs script).2 then [msg] else [])

/-- The (path, content) pairs written by a script, in program order. -/
def writesOf : List Step → List (Path × String)
  | [] => []
  | Step.mkdir _ :: rest => writesOf rest
  | Step.write p c :: rest => (p, c) :: writesOf rest

/-- The paths written by a script. -/
def writeKeys (s : List Step) : List Path := (writesOf s).map Prod.fst

/-- Every path some `makedirs` call of a script creates or checks: all
nonempty prefixes of every `mkdir` target. -/
def dirPaths : List Step → List Path
  | [] => []
  | Step.mkdir p :: rest => prefixes p ++ dirPaths rest
  | Step.write _ _ :: rest => dirPaths rest

/-- Every path a script can touch: directory paths and written paths. -/
def footprint : List Step → List Path
  | [] => []
  | Step.mkdir p :: rest => prefixes p ++ footprint rest
  | Step.write p _ :: rest => p :: footprint rest

/-- `parentPreparedAt made s = true` when every `create_file` in `s` is
preceded (in program order, or in `made`) by a `makedirs` call that created
its parent directory. -/
def parentPreparedAt : List Path → List Step → Bool
  | _, [] => true
  | made, Step.mkdir p :: rest => parentPreparedAt (prefixes p ++ made) rest
  | made, Step.write p _ :: rest =>
      decide (parent p ∈ made) && parentPreparedAt made rest

/-- `isUnder base p = true` when `p` lies in the subtree rooted at `base`
(including `base` itself). -/
def isUnder (base p : Path) : Bool := base.isPrefixOf p

/-- The steps of `create_oauth_plugin_structure` in `plugin.py`, in program
order, with the literal paths and contents of the source. -/
def create_oauth_plugin_structure : List Step :=
  [ Step.mkdir ["oauth-plugin"],
    Step.write ["oauth-plugin", "plugin.json"] "// Plugin manifest",
    Step.write ["oauth-plugin", "index.js"] "// Main plugin entry point",
    Step.write ["oauth-plugin", "README.md"] "# OAuth Plugin\n\nPlugin documentation",
    Step.mkdir ["oauth-plugin", "routes"],
    Step.write ["oauth-plugin", "routes", "callback.js"] "// OAuth callback handler",
    Step.write ["oauth-plugin", "routes", "providers.js"] "// Get available providers",
    Step.write ["oauth-plugin", "routes", "config.js"] "// Plugin configuration API",
    Step.mkdir ["oauth-plugin", "admin"],
    Step.write ["oauth-plugin", "admin", "oauth-settings.jsx"] "// Admin configuration page",
    Step.mkdir ["oauth-plugin", "widgets"],
    Step.write ["oauth-plugin", "widgets", "oauth-stats.jsx"] "// Dashboard statistics widget",
    Step.mkdir ["oauth-plugin", "components"],
    Step.write ["oauth-plugin", "components", "OAuthButtons.jsx"] "// OAuth login buttons",
    Step.mkdir ["oauth-plugin", "lib"],
    Step.write ["oauth-plugin", "lib", "oauth-providers.js"] "// OAuth provider configurations",
    Step.write ["oauth-plugin", "lib", "oauth-utils.js"] "// OAuth utility functions",
    Step.write ["oauth-plugin", "lib", "database.js"] "// Database models and operations",
    Step.mkdir ["oauth-plugin", "assets"],
    Step.write ["oauth-plugin", "assets", "oauth.css"] "/* OAuth button styles */",
    Step.write ["oauth-plugin", "assets", "oauth.js"] "// Client-side OAuth handling" ]

/-- The success message printed by `plugin.py`. -/
def oauthMsg : String := "OAuth plugin folder structure created successfully!"

/-- The steps of `create_default_theme_structure` in `ss.py`, in program
order, with the literal paths and contents of the source. -/
def create_default_theme_structure : List Step :=
  [ Step.mkdir ["themes", "installed", "default"],
    Step.write ["themes", "installed", "default", "theme.json"] "// Theme manifest",
    Step.write ["themes", "installed", "default", "index.js"] "// Main entry point",
    Step.write ["themes", "installed", "default", "styles.css"] "/* Theme styles */",
    Step.write ["themes", "installed", "default", "preview.jpg"] "/* Theme preview image */",
    Step.mkdir ["themes", "installed", "default", "layouts"],
    Step.write ["themes", "installed", "default", "layouts", "default.tsx"] "// Default layout",
    Step.write ["themes", "installed", "default", "layouts", "admin.tsx"] "// Admin layout",
    Step.write ["themes", "installed", "default", "layouts", "auth.tsx"] "// Authentication layout",
    Step.mkdir ["themes", "installed", "default", "components"],
    Step.write ["themes", "installed", "default", "components", "header.tsx"] "// Site header",
    Step.write ["themes", "installed", "default", "components", "footer.tsx"] "// Site footer",
    Step.write ["themes", "installed", "default", "components", "navigation.tsx"] "// Main navigation",
    Step.write ["themes", "installed", "default", "components", "hero-section.tsx"] "// Homepage hero",
    Step.write ["themes", "installed", "default", "components", "features-section.tsx"] "// Features section",
    Step.write ["themes", "installed", "default", "components", "stats-section.tsx"] "// Statistics section",
    Step.write ["themes", "installed", "default", "components", "cta-section.tsx"] "// Call-to-action section",
    Step.write ["themes", "installed", "default", "components", "testimonials-section.tsx"] "// Testimonials section",
    Step.mkdir ["themes", "installed", "default", "pages"],
    Step.write ["themes", "installed", "default", "pages", "homepage.tsx"] "// Homepage component",
    Step.write ["themes", "installed", "default", "pages", "about.tsx"] "// About page",
    Step.write ["themes", "installed", "default", "pages", "contact.tsx"] "// Contact page",
    Step.mkdir ["themes", "installed", "default", "assets"],
    Step.mkdir ["themes", "installed", "default", "assets", "images"],
    Step.write ["themes", "installed", "default", "assets", "images", "logo.svg"] "<!-- Default logo -->",
    Step.write ["themes", "installed", "default", "assets", "images", "hero-bg.jpg"] "/* Hero background */",
    Step.write ["themes", "installed", "default", "assets", "images", "feature-1.svg"] "<!-- Feature icon 1 -->",
    Step.write ["themes", "installed", "default", "assets", "images", "feature-2.svg"] "<!-- Feature icon 2 -->",
    Step.write ["themes", "installed", "default", "assets", "images", "feature-3.svg"] "<!-- Feature icon 3 -->",
    Step.mkdir ["themes", "installed", "default", "assets", "fonts"],
    Step.write ["themes", "installed", "default", "assets", "fonts", "inter-var.woff2"] "/* Inter font */",
    Step.write ["themes", "installed", "default", "assets", "fonts", "poppins-var.woff2"] "/* Poppins font */",
    Step.mkdir ["themes", "installed", "default", "assets", "icons"],
    Step.write ["themes", "installed", "default", "assets", "icons", "check.svg"] "<!-- Check icon -->",
    Step.write ["themes", "installed", "default", "assets", "icons", "arrow-right.svg"] "<!-- Arrow icon -->",
    Step.write ["themes", "installed", "default", "assets", "icons", "star.svg"] "<!-- Star icon -->" ]

/-- The success message printed by `ss.py`. -/
def themeMsg : String := "Default theme folder structure created successfully!"

/-- A step acts as a successful no-op on `fs`: for a `makedirs` call all the
directories already exist, for a `create_file` call the file already holds
exactly the content being written and its parent directory exists. -/
def stable (fs : FS) : Step → Prop
  | Step.mkdir p => ∀ q ∈ prefixes p, lookup fs q = some Node.dir
  | Step.write p c => lookup fs p = some (Node.file c) ∧
      (parent p = [] ∨ lookup fs (parent p) = some Node.dir)

/-- Sample state: a directory `a` holding a file `a/f.txt` with content
`old`. -/
def fsDemo : FS := [(["a"], Node.dir), (["a", "f.txt"], Node.file "old")]

/-- Sample state: a single directory `a`. -/
def fsDirA : FS := [(["a"], Node.dir)]

/-- Sample state: directories `a` and `a/b`. -/
def fsAB : FS := [(["a"], Node.dir), (["a", "b"], Node.dir)]

/-- Sample state: a file occupies the path component `a`. -/
def fsFileBlock : FS := [(["a"], Node.file "x")]

/-- Sample state: a file occupies the path `oauth-plugin`, so the very first
`makedirs` call of `plugin.py` fails. -/
def fsOauthBlocked : FS := [(["oauth-plugin"], Node.file "occupied")]

/-- Sample state: an unrelated file `keep` outside both scaffold trees. -/
def fsKeep : FS := [(["keep"], Node.file "k")]

/-- Sample state: two pre-existing zero-byte files outside both scaffold
trees. -/
def fsEmptyFiles : FS := [(["z"], Node.file ""), (["w"], Node.file "")]

/-! ### Basic lemmas about `lookup` and `setNode` -/

theorem lookup_setNode_self (fs : FS) (p : Path) (n : Node) :
    lookup (setNode fs p n) p = some n := by
  induction fs with
  | nil => simp [setNode, lookup]
  | cons e rest ih =>
      obtain ⟨q, m⟩ := e
      by_cases hqp : q = p
      · simp [setNode, hqp, lookup]
      · simp [setNode, hqp, lookup, ih]

theorem lookup_setNode_ne (fs : FS) (p q : Path) (n : Node) (h : q ≠ p) :
    lookup (setNode fs p n) q = lookup fs q := by
  have hpq : p ≠ q := Ne.symm h
  induction fs with
  | nil => simp [setNode, lookup, hpq]
  | cons e rest ih =>
      obtain ⟨r, m⟩ := e
      by_cases hrp : r = p
      · subst hrp
        simp [setNode, lookup, hpq]
      · simp only [setNode, if_neg hrp, lookup]
        rw [ih]

theorem setNode_lookup_eq (fs : FS) (p : Path) (n : Node)
    (h : lookup fs p = some n) : setNode fs p n = fs := by
  induction fs with
  | nil => simp [lookup] at h
  | cons e rest ih =>
      obtain ⟨q, m⟩ := e
      by_cases hqp : q = p
      · subst hqp
        simp [lookup] at h
        simp [setNode, h]
      · simp [lookup, hqp] at h
        simp [setNode, hqp, ih h]

/-! ### Lemmas about `mkdirsFrom` and `makedirs` -/

theorem mkdirsFrom_preserves (rest : Path) :
    ∀ (fs : FS) (done : Path) (fs' : FS),
      mkdirsFrom fs done rest = Except.ok fs' →
      ∀ q n, lookup fs q = some n → lookup fs' q = some n := by
  induction rest with
  | nil =>
      intro fs done fs' h q n hq
      simp only [mkdirsFrom] at h
      cases h
      exact hq
  | cons c cs ih =>
      intro fs done fs' h q n hq
      simp only [mkdirsFrom] at h
      split at h
      · exact ih fs _ fs' h q n hq
      · cases h
      · rename_i hnone
        refine ih _ _ fs' h q n ?_
        have hne : q ≠ done ++ [c] := by
          intro he
          rw [he, hnone] at hq
          cases hq
        rw [lookup_setNode_ne fs _ q Node.dir hne]
        exact hq

theorem mkdirsFrom_dirs (rest : Path) :
    ∀ (fs : FS) (done : Path) (fs' : FS),
      mkdirsFrom fs done rest = Except.ok fs' →
      ∀ q ∈ prefixesFrom done rest, lookup fs' q = some Node.dir := by
  induction rest with
  | nil =>
      intro fs done fs' _ q hq
      simp [prefixesFrom] at hq
  | cons c cs ih =>
      intro fs done fs' h q hq
      simp only [mkdirsFrom] at h
      simp only [prefixesFrom, List.mem_cons] at hq
      split at h
      · rename_i hdir
        rcases hq with hq | hq
        · subst hq
          exact mkdirsFrom_preserves cs fs _ fs' h _ Node.dir hdir
        · exact ih fs _ fs' h q hq
      · cases h
      · rcases hq with hq | hq
        · subst hq
          refine mkdirsFrom_preserves cs _ _ fs' h _ Node.dir ?_
          exact lookup_setNode_self fs _ Node.dir
        · exact ih _ _ fs' h q hq

theorem mkdirsFrom_frame (rest : Path) :
    ∀ (fs : FS) (done : Path) (fs' : FS),
      mkdirsFrom fs done rest = Except.ok fs' →
      ∀ q, q ∉ prefixesFrom done rest → lookup fs' q = lookup fs q := by
  induction rest with
  | nil =>
      intro fs done fs' h q _
      simp only [mkdirsFrom] at h
      cases h
      rfl
  | cons c cs ih =>
      intro fs done fs' h q hq
      simp only [mkdirsFrom] at h
      simp only [prefixesFrom, List.mem_cons, not_or] at hq
      obtain ⟨hq1, hq2⟩ := hq
      split at h
      · exact ih fs _ fs' h q hq2
      · cases h
      · rw [ih _ _ fs' h q hq2]
        exact lookup_setNode_ne fs _ q Node.dir hq1

theorem mkdirsFrom_no_new_file (rest : Path) (fs : FS) (done : Path) (fs' : FS)
    (h : mkdirsFrom fs done rest = Except.ok fs')
    (q : Path) (c : String) (hq : lookup fs' q = some (Node.file c)) :
    lookup fs q = some (Node.file c) := by
  by_cases hmem : q ∈ prefixesFrom done rest
  · have := mkdirsFrom_dirs rest fs done fs' h q hmem
    rw [this] at hq
    cases hq
  · rw [← mkdirsFrom_frame rest fs done fs' h q hmem]
    exact hq

theorem mkdirsFrom_exist (rest : Path) :
    ∀ (fs : FS) (done : Path),
      (∀ q ∈ prefixesFrom done rest, lookup fs q = some Node.dir) →
      mkdirsFrom fs done rest = Except.ok fs := by
  induction rest with
  | nil => intro fs done _; rfl
  | cons c cs ih =>
      intro fs done hall
      have hc : lookup fs (done ++ [c]) = some Node.dir := by
        refine hall _ ?_
        simp [prefixesFrom]
      simp only [mkdirsFrom, hc]
      refine ih fs _ ?_
      intro q hq
      refine hall q ?_
      simp [prefixesFrom, hq]

theorem mkdirsFrom_file_error (rest : Path) :
    ∀ (fs : FS) (done : Path),
      (∃ q ∈ prefixesFrom done rest, ∃ c, lookup fs q = some (Node.file c)) →
      mkdirsFrom fs done rest = Except.error () := by
  induction rest with
  | nil =>
      intro fs done h
      simp [prefixesFrom] at h
  | cons c cs ih =>
      intro fs done h
      obtain ⟨q, hqmem, d, hqfile⟩ := h
      simp only [prefixesFrom, List.mem_cons] at hqmem
      simp only [mkdirsFrom]
      rcases hqmem with hq | hq
      · subst hq
        rw [hqfile]
      · cases hcase : lookup fs (done ++ [c]) with
        | none =>
            refine ih _ _ ?_
            refine ⟨q, hq, d, ?_⟩
            have hne : q ≠ done ++ [c] := by
              intro he
              rw [he, hcase] at hqfile
              cases hqfile
            rw [lookup_setNode_ne fs _ q Node.dir hne]
            exact hqfile
        | some n =>
            cases n with
            | dir => exact ih fs _ ⟨q, hq, d, hqfile⟩
            | file e => rfl

/-! ### Lemmas about `create_file` -/

theorem create_file_ok (fs : FS) (p : Path) (c : String) (fs1 : FS)
    (h : create_file fs p c = Except.ok fs1) :
    fs1 = setNode fs p (Node.file c) := by
  simp only [create_file] at h
  split at h
  · split at h <;> first | exact (Except.ok.inj h).symm | cases h
  · cases h

/-! ### Lemmas about `run` -/

theorem run_append (s1 s2 : List Step) : ∀ fs : FS,
    run fs (s1 ++ s2) =
      if (run fs s1).2 then run (run fs s1).1 s2 else run fs s1 := by
  induction s1 with
  | nil => intro fs; simp [run]
  | cons st rest ih =>
      intro fs
      simp only [List.cons_append, run]
      cases h : runStep fs st with
      | ok fs1 => exact ih fs1
      | error e => simp

theorem run_preserves (s : List Step) : ∀ (fs fs' : FS),
    run fs s = (fs', true) →
    ∀ q n, lookup fs q = some n → q ∉ writeKeys s → lookup fs' q = some n := by
  induction s with
  | nil =>
      intro fs fs' h q n hq _
      simp only [run, Prod.mk.injEq] at h
      rw [← h.1]
      exact hq
  | cons st rest ih =>
      intro fs fs' h q n hq hqk
      cases st with
      | mkdir d =>
          simp only [run, runStep] at h
          split at h
          · rename_i fs1 heq
            refine ih fs1 fs' h q n ?_ ?_
            · exact mkdirsFrom_preserves d fs [] fs1 heq q n hq
            · simpa [writeKeys, writesOf] using hqk
          · simp at h
      | write wp wc =>
          simp only [run, runStep] at h
          split at h
          · rename_i fs1 heq
            have hcons : writeKeys (Step.write wp wc :: rest) =
                wp :: writeKeys rest := rfl
            rw [hcons, List.mem_cons, not_or] at hqk
            refine ih fs1 fs' h q n ?_ hqk.2
            rw [create_file_ok fs wp wc fs1 heq]
            rw [lookup_setNode_ne fs wp q (Node.file wc) hqk.1]
            exact hq
          · simp at h

theorem run_writes (s : List Step) : ∀ (fs fs' : FS),
    run fs s = (fs', true) → (writeKeys s).Nodup →
    ∀ p c, (p, c) ∈ writesOf s → lookup fs' p = some (Node.file c) := by
  induction s with
  | nil =>
      intro fs fs' _ _ p c hmem
      simp [writesOf] at hmem
  | cons st rest ih =>
      intro fs fs' h hnd p c hmem
      cases st with
      | mkdir d =>
          simp only [run, runStep] at h
          split at h
          · rename_i fs1 heq
            refine ih fs1 fs' h ?_ p c ?_
            · simpa [writeKeys, writesOf] using hnd
            · simpa [writesOf] using hmem
          · simp at h
      | write wp wc =>
          simp only [run, runStep] at h
          split at h
          · rename_i fs1 heq
            simp only [writeKeys, writesOf, List.map_cons, List.nodup_cons] at hnd
            simp only [writesOf, List.mem_cons, Prod.mk.injEq] at hmem
            rcases hmem with ⟨hp, hc⟩ | hmem
            · subst hp; subst hc
              refine run_preserves rest fs1 fs' h p (Node.file c) ?_ ?_
              · rw [create_file_ok fs p c fs1 heq]
                exact lookup_setNode_self fs p (Node.file c)
              · simpa [writeKeys] using hnd.1
            · exact ih fs1 fs' h (by simpa [writeKeys] using hnd.2) p c hmem
          · simp at h

theorem run_dirs (s : List Step) : ∀ (fs fs' : FS),
    run fs s = (fs', true) →
    (∀ p ∈ dirPaths s, p ∉ writeKeys s) →
    ∀ p ∈ dirPaths s, lookup fs' p = some Node.dir := by
  induction s with
  | nil =>
      intro fs fs' _ _ p hp
      simp [dirPaths] at hp
  | cons st rest ih =>
      intro fs fs' h hdw p hp
      cases st with
      | mkdir d =>
          simp only [run, runStep] at h
          split at h
          · rename_i fs1 heq
            simp only [dirPaths, List.mem_append] at hp
            rcases hp with hp | hp
            · have h1 : lookup fs1 p = some Node.dir :=
                mkdirsFrom_dirs d fs [] fs1 heq p hp
              refine run_preserves rest fs1 fs' h p Node.dir h1 ?_
              have hw := hdw p (by simp [dirPaths, List.mem_append, hp])
              simpa [writeKeys, writesOf] using hw
            · refine ih fs1 fs' h ?_ p hp
              intro p' hp'
              have hw := hdw p' (by simp [dirPaths, List.mem_append, hp'])
              simpa [writeKeys, writesOf] using hw
          · simp at h
      | write wp wc =>
          simp only [run, runStep] at h
          split at h
          · rename_i fs1 heq
            simp only [dirPaths] at hp
            refine ih fs1 fs' h ?_ p hp
            intro p' hp'
            have hw := hdw p' (by simpa [dirPaths] using hp')
            intro hk
            have hcons : writeKeys (Step.write wp wc :: rest) =
                wp :: writeKeys rest := rfl
            exact hw (hcons ▸ List.mem_cons_of_mem wp hk)
          · simp at h

theorem run_frame (s : List Step) : ∀ (fs : FS) (q : Path),
    q ∉ footprint s → lookup (run fs s).1 q = lookup fs q := by
  induction s with
  | nil => intro fs q _; rfl
  | cons st rest ih =>
      intro fs q hq
      cases st with
      | mkdir d =>
          simp only [footprint, List.mem_append, not_or] at hq
          simp only [run, runStep]
          split
          · rename_i fs1 heq
            rw [ih fs1 q hq.2]
            exact mkdirsFrom_frame d fs [] fs1 heq q hq.1
          · rfl
      | write wp wc =>
          simp only [footprint, List.mem_cons, not_or] at hq
          simp only [run, runStep]
          split
          · rename_i fs1 heq
            rw [ih fs1 q hq.2, create_file_ok fs wp wc fs1 heq]
            exact lookup_setNode_ne fs wp q (Node.file wc) hq.1
          · rfl

theorem run_no_new_empty (s : List Step) :
    ∀ (fs : FS) (q : Path),
      (∀ pc ∈ writesOf s, pc.2 ≠ "") →
      lookup (run fs s).1 q = some (Node.file "") →
      lookup fs q = some (Node.file "") := by
  induction s with
  | nil => intro fs q _ h; exact h
  | cons st rest ih =>
      intro fs q hc h
      cases st with
      | mkdir d =>
          simp only [run, runStep] at h
          split at h
          · rename_i fs1 heq
            have h1 := ih fs1 q (by simpa [writesOf] using hc) h
            exact mkdirsFrom_no_new_file d fs [] fs1 heq q "" h1
          · exact h
      | write wp wc =>
          simp only [run, runStep] at h
          split at h
          · rename_i fs1 heq
            have h1 := ih fs1 q (fun pc hpc => hc pc (by simp [writesOf, hpc])) h
            rw [create_file_ok fs wp wc fs1 heq] at h1
            by_cases hqw : q = wp
            · subst hqw
              rw [lookup_setNode_self fs q (Node.file wc)] at h1
              have hwc : wc ≠ "" := hc (q, wc) (by simp [writesOf])
              cases h1
              exact absurd rfl hwc
            · rw [lookup_setNode_ne fs wp q (Node.file wc) hqw] at h1
              exact h1
          · exact h

/-! ### Stability: a state on which a script's steps act as the identity -/

theorem run_stable (s : List Step) : ∀ fs : FS,
    (∀ st ∈ s, stable fs st) → run fs s = (fs, true) := by
  induction s with
  | nil => intro fs _; rfl
  | cons st rest ih =>
      intro fs hall
      have hst := hall st (List.mem_cons_self st rest)
      have htail : ∀ st' ∈ rest, stable fs st' :=
        fun st' hmem => hall st' (List.mem_cons_of_mem st hmem)
      cases st with
      | mkdir d =>
          simp only [stable] at hst
          have hd : makedirs fs d = Except.ok fs := mkdirsFrom_exist d fs [] hst
          simp only [run, runStep, hd]
          exact ih fs htail
      | write wp wc =>
          simp only [stable] at hst
          obtain ⟨hfile, hpar⟩ := hst
          have hset : setNode fs wp (Node.file wc) = fs :=
            setNode_lookup_eq fs wp (Node.file wc) hfile
          have hw : create_file fs wp wc = Except.ok fs := by
            simp only [create_file]
            rw [if_pos hpar, hfile, hset]
          simp only [run, runStep, hw]
          exact ih fs htail

theorem mkdir_mem_dirPaths (s : List Step) (p : Path) (h : Step.mkdir p ∈ s) :
    ∀ q ∈ prefixes p, q ∈ dirPaths s := by
  induction s with
  | nil => cases h
  | cons st rest ih =>
      intro q hq
      rcases List.mem_cons.mp h with he | hm
      · rw [← he]
        simp only [dirPaths, List.mem_append]
        exact Or.inl hq
      · cases st with
        | mkdir d =>
            simp only [dirPaths, List.mem_append]
            exact Or.inr (ih hm q hq)
        | write wp wc =>
            simpa [dirPaths] using ih hm q hq

theorem write_mem_writesOf (s : List Step) (p : Path) (c : String)
    (h : Step.write p c ∈ s) : (p, c) ∈ writesOf s := by
  induction s with
  | nil => cases h
  | cons st rest ih =>
      rcases List.mem_cons.mp h with he | hm
      · rw [← he]
        simp [writesOf]
      · cases st with
        | mkdir d => simpa [writesOf] using ih hm
        | write wp wc =>
            simp only [writesOf, List.mem_cons]
            exact Or.inr (ih hm)

theorem run_establishes_stable (s : List Step) (fs fs' : FS)
    (h : run fs s = (fs', true))
    (hnd : (writeKeys s).Nodup)
    (hdw : ∀ p ∈ dirPaths s, p ∉ writeKeys s)
    (hpar : ∀ pc ∈ writesOf s, parent pc.1 ∈ dirPaths s) :
    ∀ st ∈ s, stable fs' st := by
  intro st hmem
  cases st with
  | mkdir d =>
      simp only [stable]
      intro q hq
      exact run_dirs s fs fs' h hdw q (mkdir_mem_dirPaths s d hmem q hq)
  | write p c =>
      have hw : (p, c) ∈ writesOf s := write_mem_writesOf s p c hmem
      simp only [stable]
      refine ⟨run_writes s fs fs' h hnd p c hw, Or.inr ?_⟩
      exact run_dirs s fs fs' h hdw (parent p) (hpar (p, c) hw)

theorem run_rerun (s : List Step) (fs fs' : FS)
    (h : run fs s = (fs', true))
    (hnd : (writeKeys s).Nodup)
    (hdw : ∀ p ∈ dirPaths s, p ∉ writeKeys s)
    (hpar : ∀ pc ∈ writesOf s, parent pc.1 ∈ dirPaths s) :
    run fs' s = (fs', true) :=
  run_stable s fs' (run_establishes_stable s fs fs' h hnd hdw hpar)

/-! ### Program-order preparation of parent directories -/

theorem parentPrepared_split (s1 : List Step) :
    ∀ (made : List Path) (p : Path) (c : String) (s2 : List Step),
      parentPreparedAt made (s1 ++ Step.write p c :: s2) = true →
      parent p ∈ made ∨ parent p ∈ dirPaths s1 := by
  induction s1 with
  | nil =>
      intro made p c s2 h
      simp only [List.nil_append, parentPreparedAt, Bool.and_eq_true,
        decide_eq_true_eq] at h
      exact Or.inl h.1
  | cons st rest ih =>
      intro made p c s2 h
      cases st with
      | mkdir d =>
          simp only [List.cons_append, parentPreparedAt] at h
          rcases ih _ p c s2 h with hm | hm
          · rcases List.mem_append.mp hm with hm | hm
            · exact Or.inr (by simp [dirPaths, List.mem_append, hm])
            · exact Or.inl hm
          · exact Or.inr (by simp [dirPaths, List.mem_append, hm])
      | write wp wc =>
          simp only [List.cons_append, parentPreparedAt, Bool.and_eq_true] at h
          rcases ih made p c s2 h.2 with hm | hm
          · exact Or.inl hm
          · exact Or.inr (by simpa [dirPaths] using hm)

theorem writesOf_append (s1 s2 : List Step) :
    writesOf (s1 ++ s2) = writesOf s1 ++ writesOf s2 := by
  induction s1 with
  | nil => rfl
  | cons st rest ih => cases st <;> simp [writesOf, ih]

theorem writeKeys_append (s1 s2 : List Step) :
    writeKeys (s1 ++ s2) = writeKeys s1 ++ writeKeys s2 := by
  simp [writeKeys, writesOf_append]

theorem dirPaths_append (s1 s2 : List Step) :
    dirPaths (s1 ++ s2) = dirPaths s1 ++ dirPaths s2 := by
  induction s1 with
  | nil => rfl
  | cons st rest ih => cases st <;> simp [dirPaths, ih]

theorem not_mem_footprint (s : List Step) (base : Path)
    (hall : (footprint s).all (isUnder base) = true)
    (p : Path) (hp : isUnder base p = false) : p ∉ footprint s := by
  intro hmem
  have htrue := List.all_eq_true.mp hall p hmem
  rw [hp] at htrue
  cases htrue

theorem run_prefix_parent_dir (script : List Step)
    (hpp : parentPreparedAt [] script = true)
    (hdw : ∀ p ∈ dirPaths script, p ∉ writeKeys script) :
    ∀ (fs : FS) (s1 : List Step) (p : Path) (c : String) (s2 : List Step),
      script = s1 ++ Step.write p c :: s2 →
      (run fs s1).2 = true →
      lookup (run fs s1).1 (parent p) = some Node.dir := by
  intro fs s1 p c s2 hsplit h
  have h1 : run fs s1 = ((run fs s1).1, true) := by rw [← h]
  have hmem : parent p ∈ dirPaths s1 := by
    rw [hsplit] at hpp
    rcases parentPrepared_split s1 [] p c s2 hpp with hm | hm
    · simp at hm
    · exact hm
  refine run_dirs s1 fs _ h1 ?_ (parent p) hmem
  intro p' hp'
  have hp'' : p' ∈ dirPaths script := by
    rw [hsplit, dirPaths_append]
    exact List.mem_append_left _ hp'
  intro hk
  refine hdw p' hp'' ?_
  rw [hsplit, writeKeys_append]
  exact List.mem_append_left _ hk

theorem isUnder_cons_head (a b : String) (p : List String) :
    isUnder [a] (b :: p) = (a == b) := by
  simp [isUnder, List.isPrefixOf]

/-! ### The claims -/

/-- C1: for every initial filesystem state in which a run of a scaffold
script succeeds, afterwards every file listed in that script's fixed
manifest exists at its path and its content equals exactly the literal
content string given for it in the script. -/
theorem c1_manifest_contents_exact (fs : FS) (p : Path) (c : String) :
    ((run fs create_oauth_plugin_structure).2 = true →
      (p, c) ∈ writesOf create_oauth_plugin_structure →
      lookup (run fs create_oauth_plugin_structure).1 p =
        some (Node.file c)) ∧
    ((run fs create_default_theme_structure).2 = true →
      (p, c) ∈ writesOf create_default_theme_structure →
      lookup (run fs create_default_theme_structure).1 p =
        some (Node.file c)) := by
  constructor
  · intro h hmem
    have h1 : run fs create_oauth_plugin_structure =
        ((run fs create_oauth_plugin_structure).1, true) := by rw [← h]
    exact run_writes _ fs _ h1 (by decide) p c hmem
  · intro h hmem
    have h1 : run fs create_default_theme_structure =
        ((run fs create_default_theme_structure).1, true) := by rw [← h]
    exact run_writes _ fs _ h1 (by decide) p c hmem

theorem c1_manifest_contents_exact_witness :
    lookup (run ([] : FS) create_oauth_plugin_structure).1
        ["oauth-plugin", "plugin.json"] = some (Node.file "// Plugin manifest") ∧
    lookup (run ([] : FS) create_default_theme_structure).1
        ["themes", "installed", "default", "theme.json"] =
      some (Node.file "// Theme manifest") :=
  ⟨(c1_manifest_contents_exact [] ["oauth-plugin", "plugin.json"]
      "// Plugin manifest").1 (by decide) (by decide),
   (c1_manifest_contents_exact [] ["themes", "installed", "default", "theme.json"]
      "// Theme manifest").2 (by decide) (by decide)⟩

/-- C2: `create_file` on a path holding a file of any prior content replaces
the content so that afterwards it equals exactly the new content (truncating,
never merging); the embedding models the with-statement by performing the
write and close atomically. -/
theorem c2_create_file_truncates (fs : FS) (p : Path) (c old : String)
    (hold : lookup fs p = some (Node.file old))
    (hpar : parent p = [] ∨ lookup fs (parent p) = some Node.dir) :
    create_file fs p c = Except.ok (setNode fs p (Node.file c)) ∧
    lookup (setNode fs p (Node.file c)) p = some (Node.file c) := by
  constructor
  · simp only [create_file]
    rw [if_pos hpar, hold]
  · exact lookup_setNode_self fs p (Node.file c)

theorem c2_create_file_truncates_witness :
    create_file fsDemo ["a", "f.txt"] "new" =
        Except.ok (setNode fsDemo ["a", "f.txt"] (Node.file "new")) ∧
    lookup (setNode fsDemo ["a", "f.txt"] (Node.file "new")) ["a", "f.txt"] =
        some (Node.file "new") :=
  c2_create_file_truncates fsDemo ["a", "f.txt"] "new" "old"
    (by decide) (by decide)

/-- C3: in both scaffold scripts every `create_file` call is preceded in
program order by a `makedirs` call that created its parent directory, and
consequently whenever execution reaches a `create_file` step the parent
directory exists in the current state. -/
theorem c3_parent_created_before_write :
    parentPreparedAt [] create_oauth_plugin_structure = true ∧
    parentPreparedAt [] create_default_theme_structure = true ∧
    (∀ (fs : FS) (s1 : List Step) (p : Path) (c : String) (s2 : List Step),
      create_oauth_plugin_structure = s1 ++ Step.write p c :: s2 →
      (run fs s1).2 = true →
      lookup (run fs s1).1 (parent p) = some Node.dir) ∧
    (∀ (fs : FS) (s1 : List Step) (p : Path) (c : String) (s2 : List Step),
      create_default_theme_structure = s1 ++ Step.write p c :: s2 →
      (run fs s1).2 = true →
      lookup (run fs s1).1 (parent p) = some Node.dir) :=
  ⟨by decide, by decide,
   run_prefix_parent_dir _ (by decide) (by decide),
   run_prefix_parent_dir _ (by decide) (by decide)⟩

theorem c3_parent_created_before_write_witness :
    lookup (run ([] : FS) [Step.mkdir ["oauth-plugin"]]).1
        (parent ["oauth-plugin", "plugin.json"]) = some Node.dir ∧
    lookup (run ([] : FS) [Step.mkdir ["themes", "installed", "default"]]).1
        (parent ["themes", "installed", "default", "theme.json"]) =
      some Node.dir :=
  ⟨c3_parent_created_before_write.2.2.1 [] [Step.mkdir ["oauth-plugin"]]
      ["oauth-plugin", "plugin.json"] "// Plugin manifest"
      (List.drop 2 create_oauth_plugin_structure) (by decide) (by decide),
   c3_parent_created_before_write.2.2.2 []
      [Step.mkdir ["themes", "installed", "default"]]
      ["themes", "installed", "default", "theme.json"] "// Theme manifest"
      (List.drop 2 create_default_theme_structure) (by decide) (by decide)⟩

/-- C4: from any state reached by one successful run of a scaffold script,
running the same script again raises no error: the second run also succeeds
(so in particular every `makedirs` call on the already-existing directories
succeeds silently). -/
theorem c4_second_run_no_errors (fs fs1 : FS) :
    (run fs create_oauth_plugin_structure = (fs1, true) →
      (run fs1 create_oauth_plugin_structure).2 = true) ∧
    (run fs create_default_theme_structure = (fs1, true) →
      (run fs1 create_default_theme_structure).2 = true) := by
  constructor
  · intro h
    rw [run_rerun _ fs fs1 h (by decide) (by decide) (by decide)]
  · intro h
    rw [run_rerun _ fs fs1 h (by decide) (by decide) (by decide)]

theorem c4_second_run_no_errors_witness :
    (run (run ([] : FS) create_oauth_plugin_structure).1
        create_oauth_plugin_structure).2 = true ∧
    (run (run ([] : FS) create_default_theme_structure).1
        create_default_theme_structure).2 = true :=
  ⟨(c4_second_run_no_errors []
      (run ([] : FS) create_oauth_plugin_structure).1).1 (by decide),
   (c4_second_run_no_errors []
      (run ([] : FS) create_default_theme_structure).1).2 (by decide)⟩

/-- C5: `makedirs` (the embedding of `os.makedirs(..., exist_ok=True)`)
succeeds without error and without change when the directory already exists,
on success has created the directory together with all missing ancestors,
and fails with an error whenever some component of the path exists as a
non-directory file. -/
theorem c5_makedirs_semantics (fs : FS) (p : Path) :
    ((∀ q ∈ prefixes p, lookup fs q = some Node.dir) →
      makedirs fs p = Except.ok fs) ∧
    (∀ fs', makedirs fs p = Except.ok fs' →
      ∀ q ∈ prefixes p, lookup fs' q = some Node.dir) ∧
    ((∃ q ∈ prefixes p, ∃ c, lookup fs q = some (Node.file c)) →
      makedirs fs p = Except.error ()) :=
  ⟨fun hall => mkdirsFrom_exist p fs [] hall,
   fun fs' h q hq => mkdirsFrom_dirs p fs [] fs' h q hq,
   fun hex => mkdirsFrom_file_error p fs [] hex⟩

theorem c5_makedirs_semantics_witness :
    makedirs fsDirA ["a"] = Except.ok fsDirA ∧
    lookup fsAB ["a"] = some Node.dir ∧
    makedirs fsFileBlock ["a", "b"] = Except.error () :=
  ⟨(c5_makedirs_semantics fsDirA ["a"]).1 (by decide),
   (c5_makedirs_semantics ([] : FS) ["a", "b"]).2.1 fsAB rfl
      ["a"] (by decide),
   (c5_makedirs_semantics fsFileBlock ["a", "b"]).2.2
      ⟨["a"], by decide, "x", by decide⟩⟩

/-- C6: if a step of a scaffold script fails, the run aborts at that step
with the error propagating uncaught: the effects of the steps before the
failing one are kept, no later step is processed, and the fixed success
message is printed exactly when every step of the scaffold succeeded. -/
theorem c6_abort_on_failure (fs : FS) (s1 s2 : List Step) (st : Step)
    (msg : String) :
    ((run fs s1).2 = true → runStep (run fs s1).1 st = Except.error () →
      run fs (s1 ++ st :: s2) = ((run fs s1).1, false) ∧
      mainOutput fs (s1 ++ st :: s2) msg = ((run fs s1).1, [])) ∧
    ((mainOutput fs create_oauth_plugin_structure oauthMsg).2 = [oauthMsg] ↔
      (run fs create_oauth_plugin_structure).2 = true) ∧
    ((mainOutput fs create_default_theme_structure themeMsg).2 = [themeMsg] ↔
      (run fs create_default_theme_structure).2 = true) := by
  refine ⟨?_, ?_, ?_⟩
  · intro h1 herr
    have hrun : run fs (s1 ++ st :: s2) = ((run fs s1).1, false) := by
      rw [run_append s1 (st :: s2) fs, if_pos h1]
      simp only [run, herr]
    exact ⟨hrun, by simp [mainOutput, hrun]⟩
  · cases hb : (run fs create_oauth_plugin_structure).2 with
    | true => simp [mainOutput, hb]
    | false => simp [mainOutput, hb]
  · cases hb : (run fs create_default_theme_structure).2 with
    | true => simp [mainOutput, hb]
    | false => simp [mainOutput, hb]

theorem c6_abort_on_failure_witness :
    run fsOauthBlocked ([] ++ Step.mkdir ["oauth-plugin"] ::
        List.drop 1 create_oauth_plugin_structure) =
      ((run fsOauthBlocked []).1, false) ∧
    mainOutput fsOauthBlocked ([] ++ Step.mkdir ["oauth-plugin"] ::
        List.drop 1 create_oauth_plugin_structure) oauthMsg =
      ((run fsOauthBlocked []).1, []) :=
  (c6_abort_on_failure fsOauthBlocked []
      (List.drop 1 create_oauth_plugin_structure)
      (Step.mkdir ["oauth-plugin"]) oauthMsg).1 (by decide) rfl

/-- C7: `create_file` called with the content argument omitted (the default
empty content) produces, whenever it succeeds, a file whose content is the
empty string, of length zero. -/
theorem c7_default_content_empty_file (fs : FS) (p : Path) (fs' : FS)
    (h : create_file_default fs p = Except.ok fs') :
    lookup fs' p = some (Node.file "") ∧ ("" : String).length = 0 := by
  have he : fs' = setNode fs p (Node.file "") := create_file_ok fs p "" fs' h
  rw [he]
  exact ⟨lookup_setNode_self fs p (Node.file ""), rfl⟩

theorem c7_default_content_empty_file_witness :
    lookup ([(["a"], Node.dir), (["a", "empty.txt"], Node.file "")] : FS)
        ["a", "empty.txt"] = some (Node.file "") ∧
    ("" : String).length = 0 :=
  c7_default_content_empty_file fsDirA ["a", "empty.txt"]
    ([(["a"], Node.dir), (["a", "empty.txt"], Node.file "")] : FS) rfl

/-- C8: each scaffold run is idempotent as a whole: from any initial state
from which one run of a script succeeds, running the same script again also
succeeds and leaves the filesystem in exactly the same state as after the
first run. -/
theorem c8_rerun_same_state (fs fs1 : FS) :
    (run fs create_oauth_plugin_structure = (fs1, true) →
      run fs1 create_oauth_plugin_structure = (fs1, true)) ∧
    (run fs create_default_theme_structure = (fs1, true) →
      run fs1 create_default_theme_structure = (fs1, true)) :=
  ⟨fun h => run_rerun _ fs fs1 h (by decide) (by decide) (by decide),
   fun h => run_rerun _ fs fs1 h (by decide) (by decide) (by decide)⟩

theorem c8_rerun_same_state_witness :
    run (run ([] : FS) create_oauth_plugin_structure).1
        create_oauth_plugin_structure =
      ((run ([] : FS) create_oauth_plugin_structure).1, true) ∧
    run (run ([] : FS) create_default_theme_structure).1
        create_default_theme_structure =
      ((run ([] : FS) create_default_theme_structure).1, true) :=
  ⟨(c8_rerun_same_state []
      (run ([] : FS) create_oauth_plugin_structure).1).1 (by decide),
   (c8_rerun_same_state []
      (run ([] : FS) create_default_theme_structure).1).2 (by decide)⟩

/-- C9 counterexample: the theme script changes the path `themes`, which
lies outside the subtree of its base directory
`themes/installed/default`: starting from the empty filesystem, `themes`
goes from absent to an existing directory.  So it is not true that every
entry outside the base-directory subtree is unchanged. -/
theorem c9_counterexample :
    isUnder ["themes", "installed", "default"] ["themes"] = false ∧
    lookup ([] : FS) ["themes"] = none ∧
    lookup (run ([] : FS) create_default_theme_structure).1 ["themes"] =
      some Node.dir :=
  ⟨by decide, by decide, by decide⟩

/-- C9 (amended): the oauth script only creates or modifies paths under its
base directory `oauth-plugin`; the theme script only creates or modifies
paths under the top-level directory `themes` (its base
`themes/installed/default` plus the ancestor directories `themes` and
`themes/installed` that `makedirs` creates); the two roots are disjoint, so
running either script leaves the other script's tree untouched. -/
theorem c9_frame_amended (fs : FS) (p : Path) :
    (isUnder ["oauth-plugin"] p = false →
      lookup (run fs create_oauth_plugin_structure).1 p = lookup fs p) ∧
    (isUnder ["themes"] p = false →
      lookup (run fs create_default_theme_structure).1 p = lookup fs p) ∧
    (isUnder ["oauth-plugin"] p = true → isUnder ["themes"] p = false) := by
  refine ⟨?_, ?_, ?_⟩
  · intro hp
    exact run_frame _ fs p
      (not_mem_footprint _ ["oauth-plugin"] (by decide) p hp)
  · intro hp
    exact run_frame _ fs p (not_mem_footprint _ ["themes"] (by decide) p hp)
  · intro hp
    cases p with
    | nil => exact absurd hp (by decide)
    | cons c cs =>
        rw [isUnder_cons_head] at hp ⊢
        have hc : "oauth-plugin" = c := beq_iff_eq.mp hp
        rw [← hc]
        decide

theorem c9_frame_amended_witness :
    lookup (run fsKeep create_oauth_plugin_structure).1 ["keep"] =
        lookup fsKeep ["keep"] ∧
    lookup (run fsKeep create_default_theme_structure).1 ["keep"] =
        lookup fsKeep ["keep"] ∧
    isUnder ["themes"] ["oauth-plugin"] = false :=
  ⟨(c9_frame_amended fsKeep ["keep"]).1 (by decide),
   (c9_frame_amended fsKeep ["keep"]).2.1 (by decide),
   (c9_frame_amended fsKeep ["oauth-plugin"]).2.2 (by decide)⟩

/-- C10: every `create_file` call in both manifests passes a non-empty
literal content, and consequently neither script ever creates a zero-byte
file: any empty file present after a run was already present before it. -/
theorem c10_no_zero_byte_files (fs : FS) (q : Path) :
    (∀ pc ∈ writesOf create_oauth_plugin_structure, pc.2 ≠ "") ∧
    (∀ pc ∈ writesOf create_default_theme_structure, pc.2 ≠ "") ∧
    (lookup (run fs create_oauth_plugin_structure).1 q =
        some (Node.file "") →
      lookup fs q = some (Node.file "")) ∧
    (lookup (run fs create_default_theme_structure).1 q =
        some (Node.file "") →
      lookup fs q = some (Node.file "")) :=
  ⟨by decide, by decide,
   fun h => run_no_new_empty _ fs q (by decide) h,
   fun h => run_no_new_empty _ fs q (by decide) h⟩

theorem c10_no_zero_byte_files_witness :
    lookup fsEmptyFiles ["z"] = some (Node.file "") ∧
    lookup fsEmptyFiles ["w"] = some (Node.file "") :=
  ⟨(c10_no_zero_byte_files fsEmptyFiles ["z"]).2.2.1 (by decide),
   (c10_no_zero_byte_files fsEmptyFiles ["w"]).2.2.2 (by decide)⟩

end ModuleApp
